import Mathlib

/-!
Verification of the neural style transfer core (`src/source.py`).

The development shallowly embeds the parts of the program the claims are
about:

* `gram_matrix` — the Gram statistic (`gram_matrix` in the source), on
  tensors of rationals (exact arithmetic stands in for floating point).
* `ContentLoss` / `StyleLoss` — the loss probes, modelled as structures
  holding the fixed `target` and the mutable `loss` field; `forward`
  returns the updated probe together with the pass-through output.
* `get_style_model_and_losses` — the pipeline builder, modelled
  structurally: layers are tagged values (`RawLayer`), the built pipeline
  is a list of tagged entries (`Entry`).  Derived names `{kind}_{i}` are
  modelled as the pair of kind tag and index (`LayerName`), which is a
  faithful injective rendering of the string format used by the source.
  The probes' numeric targets (obtained by running the images through the
  partial pipeline) play no role in the structural claims and are modelled
  separately by the probe structures above.
* `run_style_transfer` — the optimization loop, modelled on the image
  pixel vector (a list of rationals): each outer iteration clamps the
  image into `[0, 1]`, evaluates the closure once (the forward/backward
  pass does not modify the image), increments the counter `run`, and then
  the external quasi-Newton optimizer replaces the image by an arbitrary
  `update` of it.  The external optimizer is the abstract parameter
  `update`; one closure evaluation per `optimizer.step` is the reference
  iteration count the spec describes.
* `main_build` — the size-equality precondition check performed by `main`
  before any pipeline is built.
-/

/-- A layer of the pretrained hierarchy, tagged by its Python class:
`nn.Conv2d`, `nn.ReLU` (with its `inplace` flag), `nn.MaxPool2d`,
`nn.BatchNorm2d`, or any other class (carrying its class name). -/
inductive RawLayer where
  | conv2d : RawLayer
  | relu (inplace : Bool) : RawLayer
  | maxPool2d : RawLayer
  | batchNorm2d : RawLayer
  | other (clsName : String) : RawLayer
deriving DecidableEq

/-- A derived layer name `{kind}_{i}` from the builder: `conv_i`, `relu_i`,
`pool_i`, `bn_i`.  The string format is injective in (kind, index), so the
pair is a faithful model of the name. -/
inductive LayerName where
  | conv (i : Nat) : LayerName
  | relu (i : Nat) : LayerName
  | pool (i : Nat) : LayerName
  | bn (i : Nat) : LayerName
deriving DecidableEq

/-- An entry of the built sequential pipeline: the normalization stage, a
named layer, a content probe `content_loss_{i}`, or a style probe
`style_loss_{i}`. -/
inductive Entry where
  | normalization : Entry
  | layer (name : LayerName) (l : RawLayer) : Entry
  | contentLoss (i : Nat) : Entry
  | styleLoss (i : Nat) : Entry
deriving DecidableEq

/-- The classification step of the builder's walk (source lines 115-129):
given the current convolution counter and a layer, produce the updated
counter, the derived name, and the layer actually appended (an in-place
ReLU is replaced by the out-of-place variant); an unrecognized layer class
raises `RuntimeError('Unrecognized layer: ...')`. -/
def classify (i : Nat) : RawLayer → Except String (Nat × LayerName × RawLayer)
  | .conv2d => .ok (i + 1, .conv (i + 1), .conv2d)
  | .relu _ => .ok (i, .relu i, .relu false)
  | .maxPool2d => .ok (i, .pool i, .maxPool2d)
  | .batchNorm2d => .ok (i, .bn i, .batchNorm2d)
  | .other n => .error ("Unrecognized layer: " ++ n)

/-- The probes appended right after a layer (source lines 133-145): a
content probe when the derived name is in `content_layers`, then a style
probe when it is in `style_layers`. -/
def probesFor (cl sl : List LayerName) (name : LayerName) (i : Nat) : List Entry :=
  (if name ∈ cl then [Entry.contentLoss i] else [])
    ++ (if name ∈ sl then [Entry.styleLoss i] else [])

/-- The builder's walk over the hierarchy (source lines 114-145), returning
the entries appended after the normalization stage, or the error raised on
the first unrecognized layer. -/
def walk (cl sl : List LayerName) (i : Nat) : List RawLayer → Except String (List Entry)
  | [] => .ok []
  | l :: rest =>
    match classify i l with
    | .error e => .error e
    | .ok (i', name, l') =>
      match walk cl sl i' rest with
      | .error e => .error e
      | .ok tail => .ok (Entry.layer name l' :: (probesFor cl sl name i' ++ tail))

/-- Whether a pipeline entry is a probe (`ContentLoss` or `StyleLoss`). -/
def isProbe : Entry → Bool
  | .contentLoss _ => true
  | .styleLoss _ => true
  | _ => false

/-- The truncation pass (source lines 148-152): scan the pipeline backwards
for the last probe and keep everything up to and including it; when no
probe exists the backward loop ends with `i = 0` and `model[:1]` keeps only
the first entry. -/
def truncate (model : List Entry) : List Entry :=
  let r := model.reverse.dropWhile (fun e => !isProbe e)
  if r.isEmpty then model.take 1 else r.reverse

/-- Default content layer selection (source line 95): `['conv_4']`. -/
def content_layers_default : List LayerName := [.conv 4]

/-- Default style layer selection (source line 96):
`['conv_1', ..., 'conv_5']`. -/
def style_layers_default : List LayerName :=
  [.conv 1, .conv 2, .conv 3, .conv 4, .conv 5]

/-- The pipeline builder `get_style_model_and_losses` (source lines
91-154), structurally: start from the normalization stage, walk the
hierarchy appending named layers and probes, then truncate after the last
probe.  `none` for a layer selection means the source's `None` default. -/
def get_style_model_and_losses (cnn : List RawLayer)
    (content_layers style_layers : Option (List LayerName)) :
    Except String (List Entry) :=
  let cl := content_layers.getD content_layers_default
  let sl := style_layers.getD style_layers_default
  match walk cl sl 0 cnn with
  | .error e => .error e
  | .ok t => .ok (truncate (Entry.normalization :: t))

/-- The sequence of derived names produced by the walk (empty past the
first unrecognized layer, where the walk aborts). -/
def derivedNames (i : Nat) : List RawLayer → List LayerName
  | [] => []
  | l :: rest =>
    match classify i l with
    | .error _ => []
    | .ok (i', name, _) => name :: derivedNames i' rest

/-- Whether a raw layer is a convolution. -/
def isConv : RawLayer → Bool
  | .conv2d => true
  | _ => false

/-- Whether a raw layer is of an unrecognized class. -/
def isOther : RawLayer → Bool
  | .other _ => true
  | _ => false

/-- Number of convolutions in a hierarchy. -/
def numConvs (cnn : List RawLayer) : Nat := cnn.countP isConv

/-- Whether an entry is a content probe. -/
def isContentP : Entry → Bool
  | .contentLoss _ => true
  | _ => false

/-- Whether an entry is a style probe. -/
def isStyleP : Entry → Bool
  | .styleLoss _ => true
  | _ => false

/-- Whether an entry, if it is a ReLU layer, is the out-of-place variant. -/
def reluOutOfPlace : Entry → Bool
  | .layer _ (.relu b) => !b
  | _ => true

/-- A four-dimensional activation tensor of shape `(a, b, c, d)` over the
rationals (exact arithmetic in place of floating point). -/
abbrev Tensor4 (a b c d : Nat) := Fin a → Fin b → Fin c → Fin d → ℚ

/-- The row-major reshape `input.view(a*b, c*d)` (source line 33): entry
`(r, s)` of the matrix is `input[r / b][r % b][s / d][s % d]`. -/
def view_ab_cd {a b c d : Nat} (input : Tensor4 a b c d) :
    Matrix (Fin (a * b)) (Fin (c * d)) ℚ :=
  fun r s =>
    match r, s with
    | ⟨rv, hr⟩, ⟨sv, hs⟩ =>
      input
        ⟨rv / b, by
          rw [Nat.mul_comm] at hr
          exact Nat.div_lt_of_lt_mul hr⟩
        ⟨rv % b, by
          rcases Nat.eq_zero_or_pos b with hb | hb
          · subst hb; simp at hr
          · exact Nat.mod_lt _ hb⟩
        ⟨sv / d, by
          rw [Nat.mul_comm] at hs
          exact Nat.div_lt_of_lt_mul hs⟩
        ⟨sv % d, by
          rcases Nat.eq_zero_or_pos d with hd | hd
          · subst hd; simp at hs
          · exact Nat.mod_lt _ hd⟩

/-- The Gram statistic `gram_matrix` (source lines 31-37): reshape to
`(a*b, c*d)`, multiply by the transpose, divide every element by
`a*b*c*d`. -/
def gram_matrix {a b c d : Nat} (input : Tensor4 a b c d) :
    Matrix (Fin (a * b)) (Fin (a * b)) ℚ :=
  let features := view_ab_cd input
  let G := features * features.transpose
  G.map (fun x => x / ((a : ℚ) * b * c * d))

/-- Mean-squared error between two tensors of shape `(a, b, c, d)`
(`F.mse_loss` with default mean reduction). -/
def mse4 {a b c d : Nat} (x y : Tensor4 a b c d) : ℚ :=
  (∑ i, ∑ j, ∑ k, ∑ l, (x i j k l - y i j k l) ^ 2) / ((a : ℚ) * b * c * d)

/-- Mean-squared error between two matrices (`F.mse_loss` with default
mean reduction). -/
def mseMat {m n : Nat} (x y : Matrix (Fin m) (Fin n) ℚ) : ℚ :=
  (∑ i, ∑ j, (x i j - y i j) ^ 2) / ((m : ℚ) * n)

/-- A content probe (`ContentLoss`, source lines 21-28): fixed detached
`target` tensor and the mutable `loss` field. -/
structure ContentLoss (a b c d : Nat) where
  target : Tensor4 a b c d
  loss : ℚ

/-- The forward pass of `ContentLoss` (source lines 26-28): store the MSE between the
input and the target as the loss, return the input unchanged.  The result
pairs the updated probe with the output tensor. -/
def ContentLoss.forward {a b c d : Nat} (cl : ContentLoss a b c d)
    (input : Tensor4 a b c d) : ContentLoss a b c d × Tensor4 a b c d :=
  ({ cl with loss := mse4 input cl.target }, input)

/-- A style probe (`StyleLoss`, source lines 40-49): fixed detached target
Gram matrix and the mutable `loss` field. -/
structure StyleLoss (a b c d : Nat) where
  target : Matrix (Fin (a * b)) (Fin (a * b)) ℚ
  loss : ℚ

/-- Construction of `StyleLoss` (source lines 41-43): the target is the Gram
matrix of the given feature tensor (the loss field starts unset; `0` is an
arbitrary initial value, never read before `forward`). -/
def StyleLoss.init {a b c d : Nat} (target_feature : Tensor4 a b c d) :
    StyleLoss a b c d :=
  { target := gram_matrix target_feature, loss := 0 }

/-- The forward pass of `StyleLoss` (source lines 45-49): store the MSE between the
input's Gram matrix and the target as the loss, return the input
unchanged. -/
def StyleLoss.forward {a b c d : Nat} (sl : StyleLoss a b c d)
    (input : Tensor4 a b c d) : StyleLoss a b c d × Tensor4 a b c d :=
  ({ sl with loss := mseMat (gram_matrix input) sl.target }, input)

/-- The clamp `clamp_(0, 1)` on one pixel value: values below `0` become `0`, values
above `1` become `1`, values in between are unchanged. -/
def clamp01 (x : ℚ) : ℚ := if x ≤ 0 then 0 else if 1 ≤ x then 1 else x

/-- The clamp `input_img.data.clamp_(0, 1)` on the whole image (pixels flattened to
a list). -/
def clampImg (img : List ℚ) : List ℚ := img.map clamp01

/-- The optimization loop state: the synthesized image's pixels and the
evaluation counter `run[0]`. -/
structure LoopState where
  img : List ℚ
  run : Nat
deriving DecidableEq

/-- One outer iteration of the loop (source lines 177-208): the closure
clamps the image into `[0, 1]`, runs the forward/backward pass (which does
not modify the image), and increments the counter; then the external
quasi-Newton optimizer replaces the image via the abstract `update`. -/
def stepOnce (update : List ℚ → List ℚ) (s : LoopState) : LoopState :=
  { img := update (clampImg s.img), run := s.run + 1 }

/-- Fuel-indexed unfolding of the `while run[0] <= num_steps` loop; the
fuel is an upper bound on the remaining iterations, never exhausted when
it starts at `steps + 1 - run` (the counter grows by one per iteration). -/
def runLoopAux (update : List ℚ → List ℚ) (steps : Nat) :
    Nat → LoopState → LoopState
  | 0, s => s
  | fuel + 1, s =>
    if s.run ≤ steps then runLoopAux update steps fuel (stepOnce update s)
    else s

/-- The `while run[0] <= num_steps` loop (source lines 176-208). -/
def runLoop (update : List ℚ → List ℚ) (steps : Nat) (s : LoopState) :
    LoopState :=
  runLoopAux update steps (steps + 1 - s.run) s

/-- The loop `run_style_transfer` restricted to the image it synthesizes (source
lines 163-212): run the loop from counter `0`, then clamp once more and
return the image. -/
def run_style_transfer (update : List ℚ → List ℚ) (num_steps : Nat)
    (input_img : List ℚ) : List ℚ :=
  clampImg (runLoop update num_steps { img := input_img, run := 0 }).img

/-- The error message of the size-precondition assertion in `main`
(source lines 227-229). -/
def sizeMismatchMsg : String :=
  "we need to import style and content images of the same size"

/-- The flow of `main` relevant to the size precondition (source lines
215-244): the style/content image shapes are compared once, before any
pipeline is built; on mismatch the run aborts and no pipeline is built. -/
def main_build (styleSize contentSize : Nat × Nat × Nat × Nat)
    (cnn : List RawLayer) : Except String (List Entry) :=
  if styleSize = contentSize then get_style_model_and_losses cnn none none
  else .error sizeMismatchMsg

/-! ### Helper lemmas -/

/-- Entries produced by `probesFor` are probes. -/
theorem probesFor_isProbe (cl sl : List LayerName) (name : LayerName)
    (i : Nat) : ∀ e ∈ probesFor cl sl name i, isProbe e = true := by
  intro e he
  unfold probesFor at he
  rcases List.mem_append.1 he with h | h <;> split at h <;>
    simp_all [isProbe]

/-- Entries produced by `probesFor` are not in-place ReLU layers. -/
theorem probesFor_reluOutOfPlace (cl sl : List LayerName) (name : LayerName)
    (i : Nat) : ∀ e ∈ probesFor cl sl name i, reluOutOfPlace e = true := by
  intro e he
  unfold probesFor at he
  rcases List.mem_append.1 he with h | h <;> split at h <;>
    simp_all [reluOutOfPlace]

/-- On a hierarchy of recognized layers the walk succeeds. -/
theorem walk_ok_of_recognized (cl sl : List LayerName) (cnn : List RawLayer)
    (hrec : ∀ l ∈ cnn, isOther l = false) :
    ∀ i, ∃ t, walk cl sl i cnn = Except.ok t := by
  induction cnn with
  | nil => intro i; exact ⟨[], rfl⟩
  | cons a rest ih =>
    intro i
    have ha : isOther a = false := hrec a (List.mem_cons_self a rest)
    have hrest : ∀ l ∈ rest, isOther l = false := fun l hl =>
      hrec l (List.mem_cons_of_mem a hl)
    cases a with
    | other n => simp [isOther] at ha
    | conv2d =>
      obtain ⟨t, ht⟩ := ih hrest (i + 1)
      exact ⟨Entry.layer (.conv (i + 1)) .conv2d ::
        (probesFor cl sl (.conv (i + 1)) (i + 1) ++ t),
        by simp [walk, classify, ht]⟩
    | relu b =>
      obtain ⟨t, ht⟩ := ih hrest i
      exact ⟨Entry.layer (.relu i) (.relu false) ::
        (probesFor cl sl (.relu i) i ++ t),
        by simp [walk, classify, ht]⟩
    | maxPool2d =>
      obtain ⟨t, ht⟩ := ih hrest i
      exact ⟨Entry.layer (.pool i) .maxPool2d ::
        (probesFor cl sl (.pool i) i ++ t),
        by simp [walk, classify, ht]⟩
    | batchNorm2d =>
      obtain ⟨t, ht⟩ := ih hrest i
      exact ⟨Entry.layer (.bn i) .batchNorm2d ::
        (probesFor cl sl (.bn i) i ++ t),
        by simp [walk, classify, ht]⟩

/-- A hierarchy containing an unrecognized layer makes the walk fail. -/
theorem walk_error_of_other (cl sl : List LayerName) (cnn : List RawLayer)
    (h : ∃ l ∈ cnn, isOther l = true) :
    ∀ i, ∃ e, walk cl sl i cnn = Except.error e := by
  induction cnn with
  | nil => simp at h
  | cons a rest ih =>
    intro i
    cases a with
    | other n =>
      exact ⟨"Unrecognized layer: " ++ n, by simp [walk, classify]⟩
    | conv2d =>
      have hrest : ∃ l ∈ rest, isOther l = true := by
        rcases h with ⟨l, hl, ho⟩
        rcases List.mem_cons.1 hl with rfl | hm
        · simp [isOther] at ho
        · exact ⟨l, hm, ho⟩
      obtain ⟨e, he⟩ := ih hrest (i + 1)
      exact ⟨e, by simp [walk, classify, he]⟩
    | relu b =>
      have hrest : ∃ l ∈ rest, isOther l = true := by
        rcases h with ⟨l, hl, ho⟩
        rcases List.mem_cons.1 hl with rfl | hm
        · simp [isOther] at ho
        · exact ⟨l, hm, ho⟩
      obtain ⟨e, he⟩ := ih hrest i
      exact ⟨e, by simp [walk, classify, he]⟩
    | maxPool2d =>
      have hrest : ∃ l ∈ rest, isOther l = true := by
        rcases h with ⟨l, hl, ho⟩
        rcases List.mem_cons.1 hl with rfl | hm
        · simp [isOther] at ho
        · exact ⟨l, hm, ho⟩
      obtain ⟨e, he⟩ := ih hrest i
      exact ⟨e, by simp [walk, classify, he]⟩
    | batchNorm2d =>
      have hrest : ∃ l ∈ rest, isOther l = true := by
        rcases h with ⟨l, hl, ho⟩
        rcases List.mem_cons.1 hl with rfl | hm
        · simp [isOther] at ho
        · exact ⟨l, hm, ho⟩
      obtain ⟨e, he⟩ := ih hrest i
      exact ⟨e, by simp [walk, classify, he]⟩

/-- Every ReLU layer the walk appends is the out-of-place variant. -/
theorem walk_reluOutOfPlace (cl sl : List LayerName) (cnn : List RawLayer) :
    ∀ i t, walk cl sl i cnn = Except.ok t →
      ∀ e ∈ t, reluOutOfPlace e = true := by
  induction cnn with
  | nil => intro i t ht e he; simp [walk] at ht; subst ht; simp at he
  | cons a rest ih =>
    intro i t ht e he
    cases a <;> simp only [walk, classify] at ht
    case other n => simp at ht
    all_goals {
      cases hw : walk cl sl _ rest <;> rw [hw] at ht <;> simp at ht
      subst ht
      rcases List.mem_cons.1 he with rfl | he'
      · simp [reluOutOfPlace]
      · rcases List.mem_append.1 he' with hp | htail
        · exact probesFor_reluOutOfPlace _ _ _ _ e hp
        · exact ih _ _ hw e htail
    }

/-- When no derived name is selected, the walk inserts no probe. -/
theorem walk_no_probe (cl sl : List LayerName) (cnn : List RawLayer) :
    ∀ i t, walk cl sl i cnn = Except.ok t →
      (∀ n ∈ derivedNames i cnn, n ∉ cl ∧ n ∉ sl) →
      ∀ e ∈ t, isProbe e = false := by
  induction cnn with
  | nil => intro i t ht _ e he; simp [walk] at ht; subst ht; simp at he
  | cons a rest ih =>
    intro i t ht hn e he
    cases a <;> simp only [walk, classify] at ht
    case other n => simp at ht
    case conv2d =>
      cases hw : walk cl sl (i + 1) rest <;> rw [hw] at ht <;> simp at ht
      subst ht
      have hhead := hn (LayerName.conv (i + 1)) (by simp [derivedNames, classify])
      have htail : ∀ n ∈ derivedNames (i + 1) rest, n ∉ cl ∧ n ∉ sl := by
        intro n hn'
        exact hn n (by simp [derivedNames, classify, hn'])
      rcases List.mem_cons.1 he with rfl | he'
      · simp [isProbe]
      · rcases List.mem_append.1 he' with hp | htl
        · simp [probesFor, hhead.1, hhead.2] at hp
        · exact ih _ _ hw htail e htl
    case relu b =>
      cases hw : walk cl sl i rest <;> rw [hw] at ht <;> simp at ht
      subst ht
      have hhead := hn (LayerName.relu i) (by simp [derivedNames, classify])
      have htail : ∀ n ∈ derivedNames i rest, n ∉ cl ∧ n ∉ sl := by
        intro n hn'
        exact hn n (by simp [derivedNames, classify, hn'])
      rcases List.mem_cons.1 he with rfl | he'
      · simp [isProbe]
      · rcases List.mem_append.1 he' with hp | htl
        · simp [probesFor, hhead.1, hhead.2] at hp
        · exact ih _ _ hw htail e htl
    case maxPool2d =>
      cases hw : walk cl sl i rest <;> rw [hw] at ht <;> simp at ht
      subst ht
      have hhead := hn (LayerName.pool i) (by simp [derivedNames, classify])
      have htail : ∀ n ∈ derivedNames i rest, n ∉ cl ∧ n ∉ sl := by
        intro n hn'
        exact hn n (by simp [derivedNames, classify, hn'])
      rcases List.mem_cons.1 he with rfl | he'
      · simp [isProbe]
      · rcases List.mem_append.1 he' with hp | htl
        · simp [probesFor, hhead.1, hhead.2] at hp
        · exact ih _ _ hw htail e htl
    case batchNorm2d =>
      cases hw : walk cl sl i rest <;> rw [hw] at ht <;> simp at ht
      subst ht
      have hhead := hn (LayerName.bn i) (by simp [derivedNames, classify])
      have htail : ∀ n ∈ derivedNames i rest, n ∉ cl ∧ n ∉ sl := by
        intro n hn'
        exact hn n (by simp [derivedNames, classify, hn'])
      rcases List.mem_cons.1 he with rfl | he'
      · simp [isProbe]
      · rcases List.mem_append.1 he' with hp | htl
        · simp [probesFor, hhead.1, hhead.2] at hp
        · exact ih _ _ hw htail e htl

/-- If every entry fails `q`, truncation keeps only the first entry
(`model[:1]`). -/
theorem truncate_of_no_probe (model : List Entry)
    (h : ∀ e ∈ model, isProbe e = false) :
    truncate model = model.take 1 := by
  unfold truncate
  have : model.reverse.dropWhile (fun e => !isProbe e) = [] :=
    List.dropWhile_eq_nil_iff.2 (by
      intro x hx
      simp [h x (List.mem_reverse.1 hx)])
  simp [this]

/-- When the pipeline contains a probe, truncation returns the reversed
remainder of the backwards scan, and the trimmed-off part is exactly the
maximal probe-free tail. -/
theorem truncate_decomp (model : List Entry)
    (h : ∃ e ∈ model, isProbe e = true) :
    truncate model =
      (model.reverse.dropWhile (fun e => !isProbe e)).reverse ∧
    truncate model ++
      (model.reverse.takeWhile (fun e => !isProbe e)).reverse = model := by
  have hne : model.reverse.dropWhile (fun e => !isProbe e) ≠ [] := by
    intro hnil
    obtain ⟨e, he, hp⟩ := h
    have := List.dropWhile_eq_nil_iff.1 hnil e (List.mem_reverse.2 he)
    simp [hp] at this
  have h1 : truncate model =
      (model.reverse.dropWhile (fun e => !isProbe e)).reverse := by
    unfold truncate
    simp [List.isEmpty_iff, hne]
  refine ⟨h1, ?_⟩
  rw [h1, ← List.reverse_append,
    List.takeWhile_append_dropWhile (p := fun e => !isProbe e),
    List.reverse_reverse]

/-- Truncation never invents entries: everything in the truncated
pipeline came from the full pipeline. -/
theorem truncate_subset (model : List Entry) :
    ∀ e ∈ truncate model, e ∈ model := by
  intro e he
  by_cases hemp : (model.reverse.dropWhile (fun e => !isProbe e)).isEmpty
  · have ht : truncate model = model.take 1 := by simp [truncate, hemp]
    rw [ht] at he
    exact List.take_subset 1 model he
  · have ht : truncate model =
        (model.reverse.dropWhile (fun e => !isProbe e)).reverse := by
      simp [truncate, hemp]
    rw [ht] at he
    have h1 : e ∈ model.reverse.dropWhile (fun e => !isProbe e) :=
      List.mem_reverse.1 he
    have h2 : e ∈ model.reverse :=
      (List.dropWhile_suffix (fun e => !isProbe e)).subset h1
    exact List.mem_reverse.1 h2

/-- The truncated pipeline ends with a probe whenever one exists. -/
theorem truncate_getLast (model : List Entry)
    (h : ∃ e ∈ model, isProbe e = true) :
    ∃ e, (truncate model).getLast? = some e ∧ isProbe e = true := by
  obtain ⟨h1, -⟩ := truncate_decomp model h
  have hne : model.reverse.dropWhile (fun e => !isProbe e) ≠ [] := by
    intro hnil
    obtain ⟨e, he, hp⟩ := h
    have := List.dropWhile_eq_nil_iff.1 hnil e (List.mem_reverse.2 he)
    simp [hp] at this
  refine ⟨(model.reverse.dropWhile (fun e => !isProbe e)).head hne, ?_, ?_⟩
  · rw [h1, List.getLast?_reverse, List.head?_eq_head hne]
  · have := List.head_dropWhile_not (fun e => !isProbe e)
      model.reverse hne
    simpa using this

/-- Truncation preserves any count of probe-implying entries. -/
theorem truncate_countP (model : List Entry) (q : Entry → Bool)
    (hq : ∀ x, q x = true → isProbe x = true)
    (h : ∃ e ∈ model, isProbe e = true) :
    (truncate model).countP q = model.countP q := by
  obtain ⟨-, h2⟩ := truncate_decomp model h
  have hzero : (model.reverse.takeWhile
      (fun e => !isProbe e)).reverse.countP q = 0 := by
    rw [List.countP_eq_zero]
    intro x hx
    have hx' : x ∈ model.reverse.takeWhile (fun e => !isProbe e) :=
      List.mem_reverse.1 hx
    have := List.mem_takeWhile_imp hx'
    intro hqx
    rw [hq x hqx] at this
    simp at this
  calc (truncate model).countP q
      = (truncate model).countP q +
        (model.reverse.takeWhile (fun e => !isProbe e)).reverse.countP q := by
        omega
    _ = model.countP q := by rw [← List.countP_append, h2]

/-- Content probes implied probes. -/
theorem isContentP_isProbe (e : Entry) (h : isContentP e = true) :
    isProbe e = true := by
  cases e <;> simp_all [isContentP, isProbe]

/-- Style probes implied probes. -/
theorem isStyleP_isProbe (e : Entry) (h : isStyleP e = true) :
    isProbe e = true := by
  cases e <;> simp_all [isStyleP, isProbe]

/-- Probe counts of the walk under the default layer selections: the walk
starting at counter `i` inserts a content probe exactly when convolution
number `4` lies among the convolutions it numbers (`i+1` through
`i + numConvs`), and one style probe for each of its convolutions numbered
`1` through `5`. -/
theorem walk_probe_counts (cnn : List RawLayer) :
    ∀ i t,
      walk content_layers_default style_layers_default i cnn = Except.ok t →
      t.countP isContentP = (if i < 4 ∧ 4 ≤ i + numConvs cnn then 1 else 0) ∧
      t.countP isStyleP = min (i + numConvs cnn) 5 - min i 5 := by
  induction cnn with
  | nil =>
    intro i t ht
    simp [walk] at ht
    subst ht
    constructor
    · simp [numConvs]
      split_ifs <;> omega
    · simp [numConvs]
  | cons a rest ih =>
    intro i t ht
    cases a <;> simp only [walk, classify] at ht
    case other n => simp at ht
    case conv2d =>
      cases hw : walk content_layers_default style_layers_default (i + 1) rest <;>
        rw [hw] at ht <;> simp at ht
      subst ht
      obtain ⟨ihc, ihs⟩ := ih (i + 1) _ hw
      have hnc : numConvs (RawLayer.conv2d :: rest) = numConvs rest + 1 := by
        simp [numConvs, List.countP_cons, isConv]
      have hmc : (LayerName.conv (i + 1) ∈ content_layers_default) ↔ i + 1 = 4 := by
        simp [content_layers_default]
      have hms : (LayerName.conv (i + 1) ∈ style_layers_default) ↔
          (i + 1 = 1 ∨ i + 1 = 2 ∨ i + 1 = 3 ∨ i + 1 = 4 ∨ i + 1 = 5) := by
        simp [style_layers_default]
      constructor
      · rw [hnc]
        simp only [List.countP_cons, List.countP_append, probesFor]
        rw [ihc]
        by_cases h4 : i + 1 = 4
        · rw [if_pos (hmc.2 h4)]
          by_cases h5 : LayerName.conv (i + 1) ∈ style_layers_default
          · rw [if_pos h5]
            simp [isContentP]
            split_ifs <;> omega
          · rw [if_neg h5]
            simp [isContentP]
            split_ifs <;> omega
        · rw [if_neg (fun hm => h4 (hmc.1 hm))]
          by_cases h5 : LayerName.conv (i + 1) ∈ style_layers_default
          · rw [if_pos h5]
            simp [isContentP]
            split_ifs <;> omega
          · rw [if_neg h5]
            simp [isContentP]
            split_ifs <;> omega
      · rw [hnc]
        simp only [List.countP_cons, List.countP_append, probesFor]
        rw [ihs]
        by_cases h5 : LayerName.conv (i + 1) ∈ style_layers_default
        · rw [if_pos h5]
          have h5' := hms.1 h5
          by_cases h4 : LayerName.conv (i + 1) ∈ content_layers_default
          · rw [if_pos h4]
            simp [isStyleP]
            omega
          · rw [if_neg h4]
            simp [isStyleP]
            omega
        · have h5' : ¬ (i + 1 = 1 ∨ i + 1 = 2 ∨ i + 1 = 3 ∨ i + 1 = 4 ∨ i + 1 = 5) :=
            fun hh => h5 (hms.2 hh)
          rw [if_neg h5]
          by_cases h4 : LayerName.conv (i + 1) ∈ content_layers_default
          · rw [if_pos h4]
            simp [isStyleP]
            omega
          · rw [if_neg h4]
            simp [isStyleP]
            omega
    case relu b =>
      cases hw : walk content_layers_default style_layers_default i rest <;>
        rw [hw] at ht <;> simp at ht
      subst ht
      obtain ⟨ihc, ihs⟩ := ih i _ hw
      have hnc : numConvs (RawLayer.relu b :: rest) = numConvs rest := by
        simp [numConvs, List.countP_cons, isConv]
      have hpe : probesFor content_layers_default style_layers_default
          (LayerName.relu i) i = [] := by
        simp [probesFor, content_layers_default, style_layers_default]
      rw [hnc]
      simp only [List.countP_cons, List.countP_append, hpe]
      simp [isContentP, isStyleP, ihc, ihs]
    case maxPool2d =>
      cases hw : walk content_layers_default style_layers_default i rest <;>
        rw [hw] at ht <;> simp at ht
      subst ht
      obtain ⟨ihc, ihs⟩ := ih i _ hw
      have hnc : numConvs (RawLayer.maxPool2d :: rest) = numConvs rest := by
        simp [numConvs, List.countP_cons, isConv]
      have hpe : probesFor content_layers_default style_layers_default
          (LayerName.pool i) i = [] := by
        simp [probesFor, content_layers_default, style_layers_default]
      rw [hnc]
      simp only [List.countP_cons, List.countP_append, hpe]
      simp [isContentP, isStyleP, ihc, ihs]
    case batchNorm2d =>
      cases hw : walk content_layers_default style_layers_default i rest <;>
        rw [hw] at ht <;> simp at ht
      subst ht
      obtain ⟨ihc, ihs⟩ := ih i _ hw
      have hnc : numConvs (RawLayer.batchNorm2d :: rest) = numConvs rest := by
        simp [numConvs, List.countP_cons, isConv]
      have hpe : probesFor content_layers_default style_layers_default
          (LayerName.bn i) i = [] := by
        simp [probesFor, content_layers_default, style_layers_default]
      rw [hnc]
      simp only [List.countP_cons, List.countP_append, hpe]
      simp [isContentP, isStyleP, ihc, ihs]

/-- The loop counter accounts for the fuel exactly: starting with fuel
`steps + 1 - run`, the loop runs until the counter first exceeds
`steps`. -/
theorem runLoopAux_run (update : List ℚ → List ℚ) (steps : Nat) :
    ∀ fuel s, s.run + fuel = steps + 1 →
      (runLoopAux update steps fuel s).run = steps + 1 := by
  intro fuel
  induction fuel with
  | zero => intro s hs; simpa [runLoopAux] using hs
  | succ fuel ih =>
    intro s hs
    simp only [runLoopAux]
    split
    · exact ih (stepOnce update s) (by simp [stepOnce]; omega)
    · omega

/-- The fuel-based loop satisfies the while-loop unfolding equation, so it
is the faithful meaning of `while run[0] <= num_steps`. -/
theorem runLoop_eq (update : List ℚ → List ℚ) (steps : Nat) (s : LoopState) :
    runLoop update steps s =
      if s.run ≤ steps then runLoop update steps (stepOnce update s) else s := by
  by_cases h : s.run ≤ steps
  · rw [if_pos h]
    unfold runLoop
    have h1 : steps + 1 - s.run = (steps - s.run) + 1 := by omega
    have h2 : steps + 1 - (stepOnce update s).run = steps - s.run := by
      simp [stepOnce]
    rw [h1, h2]
    simp only [runLoopAux]
    rw [if_pos h]
  · rw [if_neg h]
    unfold runLoop
    have h1 : steps + 1 - s.run = 0 := by omega
    rw [h1]
    rfl

/-- Every pixel of a clamped image lies in `[0, 1]`. -/
theorem clampImg_bounds (img : List ℚ) :
    ∀ x ∈ clampImg img, 0 ≤ x ∧ x ≤ 1 := by
  intro x hx
  obtain ⟨y, -, rfl⟩ := List.mem_map.1 hx
  unfold clamp01
  split_ifs with h1 h2
  · norm_num
  · norm_num
  · constructor <;> linarith

/-! ### Claim theorems -/

/-- Claim C2: for every input tensor of shape `(a, b, c, d)`, the Gram
Statistic equals the matrix product of the `(a*b, c*d)`-reshaped tensor
with its own transpose, with every element divided by `a*b*c*d`: entrywise,
`gram_matrix input i j = (Σ k, features i k * features j k) / (a*b*c*d)`
where `features` is the reshaped tensor. -/
theorem gram_matrix_is_normalized_self_product (a b c d : Nat)
    (input : Tensor4 a b c d) (i j : Fin (a * b)) :
    gram_matrix input i j =
      (∑ k : Fin (c * d), view_ab_cd input i k * view_ab_cd input j k) /
        ((a : ℚ) * b * c * d) := by
  simp [gram_matrix, Matrix.map_apply, Matrix.mul_apply,
    Matrix.transpose_apply]

/-- Claim C9: for every activation tensor, the Gram matrix computed by the
Gram Statistic is symmetric — it equals its own transpose. -/
theorem gram_matrix_symmetric (a b c d : Nat) (input : Tensor4 a b c d) :
    gram_matrix input = (gram_matrix input).transpose := by
  ext i j
  simp only [gram_matrix, Matrix.transpose_apply, Matrix.map_apply,
    Matrix.mul_apply]
  congr 1
  exact Finset.sum_congr rfl (fun k _ => mul_comm _ _)

/-- Claim C4: on every forward pass, a Content Probe returns its input
unchanged and stores the MSE between input and its fixed target as the
loss (leaving the target untouched); a Style Probe likewise returns its
input unchanged and stores the MSE between the input's Gram matrix and its
fixed target Gram matrix. -/
theorem probe_forward_pass_through {a b c d : Nat}
    (cl : ContentLoss a b c d) (sl : StyleLoss a b c d)
    (input : Tensor4 a b c d) :
    (cl.forward input).2 = input ∧
    (cl.forward input).1.loss = mse4 input cl.target ∧
    (cl.forward input).1.target = cl.target ∧
    (sl.forward input).2 = input ∧
    (sl.forward input).1.loss = mseMat (gram_matrix input) sl.target ∧
    (sl.forward input).1.target = sl.target :=
  ⟨rfl, rfl, rfl, rfl, rfl, rfl⟩

/-- Claim C5: the evaluation counter starts at `0` and the outer loop
terminates exactly when the counter exceeds `steps`; since every iteration
increments the counter once, the loop performs `steps + 1` evaluations
(counter values `0` through `steps` inclusive), one beyond the nominal
budget. -/
theorem loop_counter_runs_steps_plus_one (update : List ℚ → List ℚ)
    (steps : Nat) (img : List ℚ) :
    (runLoop update steps { img := img, run := 0 }).run = steps + 1 := by
  unfold runLoop
  exact runLoopAux_run update steps _ _ (by simp)

/-- Claim C3 (counterexample): it is not the case that after every
optimization iteration all pixels lie in `[0, 1]` — the external optimizer
updates the image after the closure's clamp, so an iteration can end with
a pixel outside the range (here the update writes the value `2`). -/
theorem clamping_fails_after_iteration :
    ¬ (∀ x ∈ (stepOnce (fun _ => [(2 : ℚ)]) { img := [0], run := 0 }).img,
        0 ≤ x ∧ x ≤ 1) := by
  intro h
  have h2 := h 2 (by simp [stepOnce])
  norm_num at h2

/-- Claim C3 (amended): the image fed to the pipeline's forward pass is
clamped, so all its pixels lie in `[0, 1]` at every evaluation, and the
finally returned image is clamped once more, so all its pixels lie in
`[0, 1]`; between the closure's clamp and the next iteration the
optimizer's update may leave pixels outside the range. -/
theorem image_clamped_at_forward_and_return (update : List ℚ → List ℚ)
    (steps : Nat) (img : List ℚ) :
    (∀ s : LoopState, ∀ x ∈ clampImg s.img, 0 ≤ x ∧ x ≤ 1) ∧
    (∀ x ∈ run_style_transfer update steps img, 0 ≤ x ∧ x ≤ 1) := by
  refine ⟨fun s => clampImg_bounds s.img, fun x hx => ?_⟩
  exact clampImg_bounds _ x hx

/-- Witness for C3 (amended) at a concrete run: the identity optimizer on
the one-pixel image `[1/2]` with budget `0` returns `[1/2]`, whose pixel
lies in `[0, 1]`. -/
theorem image_clamped_at_forward_and_return_witness :
    0 ≤ (1/2 : ℚ) ∧ (1/2 : ℚ) ≤ 1 :=
  (image_clamped_at_forward_and_return (fun l => l) 0 [1/2]).2 (1/2)
    (by norm_num [run_style_transfer, runLoop, runLoopAux, stepOnce,
      clampImg, clamp01])

/-- Claim C8: the style/content size precondition is checked before the
pipeline is built; a mismatch aborts with the assertion message and no
pipeline is ever returned. -/
theorem size_mismatch_aborts_before_build
    (styleSize contentSize : Nat × Nat × Nat × Nat) (cnn : List RawLayer)
    (h : styleSize ≠ contentSize) :
    main_build styleSize contentSize cnn = Except.error sizeMismatchMsg ∧
    ∀ m, main_build styleSize contentSize cnn ≠ Except.ok m := by
  refine ⟨by simp [main_build, h], fun m hm => ?_⟩
  simp [main_build, h] at hm

/-- Witness for C8: images of resolutions `(1,3,128,128)` and
`(1,3,64,64)` make the builder abort with the assertion message. -/
theorem size_mismatch_aborts_before_build_witness :
    main_build (1, 3, 128, 128) (1, 3, 64, 64) [] =
      Except.error sizeMismatchMsg ∧
    ∀ m, main_build (1, 3, 128, 128) (1, 3, 64, 64) [] ≠ Except.ok m :=
  size_mismatch_aborts_before_build (1, 3, 128, 128) (1, 3, 64, 64) []
    (by decide)

/-- Claim C1: after walking every layer, the builder truncates the
pipeline to end immediately after the last probe appended (the result is a
prefix of the full pipeline whose last entry is a probe); with the default
layer selections on a hierarchy of recognized layers with at least five
convolutions (trailing layers allowed), the built pipeline's last entry is
a probe — not a trailing layer — and it contains exactly one content probe
and five style probes. -/
theorem builder_truncates_after_last_probe (cnn : List RawLayer)
    (hrec : ∀ l ∈ cnn, isOther l = false)
    (hconv : 5 ≤ numConvs cnn) :
    ∃ t model,
      walk content_layers_default style_layers_default 0 cnn =
        Except.ok t ∧
      get_style_model_and_losses cnn none none = Except.ok model ∧
      model = truncate (Entry.normalization :: t) ∧
      (∃ k, model = (Entry.normalization :: t).take k) ∧
      (∃ e, model.getLast? = some e ∧ isProbe e = true) ∧
      model.countP isContentP = 1 ∧
      model.countP isStyleP = 5 := by
  obtain ⟨t, ht⟩ :=
    walk_ok_of_recognized content_layers_default style_layers_default cnn hrec 0
  obtain ⟨hc, hs⟩ := walk_probe_counts cnn 0 t ht
  have hc1 : t.countP isContentP = 1 := by
    rw [hc, if_pos]
    exact ⟨by norm_num, by omega⟩
  have hs1 : t.countP isStyleP = 5 := by
    rw [hs]
    omega
  have hfc : (Entry.normalization :: t).countP isContentP = 1 := by
    simp [List.countP_cons, isContentP, hc1]
  have hfs : (Entry.normalization :: t).countP isStyleP = 5 := by
    simp [List.countP_cons, isStyleP, hs1]
  have hex : ∃ e ∈ Entry.normalization :: t, isProbe e = true := by
    have hpos : 0 < (Entry.normalization :: t).countP isStyleP := by
      rw [hfs]; norm_num
    obtain ⟨e, he, hpe⟩ := List.countP_pos_iff.1 hpos
    exact ⟨e, he, isStyleP_isProbe e hpe⟩
  obtain ⟨heq, hdec⟩ := truncate_decomp (Entry.normalization :: t) hex
  refine ⟨t, truncate (Entry.normalization :: t), ht,
    by simp [get_style_model_and_losses, ht], rfl, ?_, ?_, ?_, ?_⟩
  · refine ⟨(truncate (Entry.normalization :: t)).length, ?_⟩
    conv_lhs => rw [← List.take_left (truncate (Entry.normalization :: t))
      ((Entry.normalization :: t).reverse.takeWhile
        (fun e => !isProbe e)).reverse]
    rw [hdec]
  · exact truncate_getLast (Entry.normalization :: t) hex
  · rw [truncate_countP (Entry.normalization :: t) isContentP
      isContentP_isProbe hex, hfc]
  · rw [truncate_countP (Entry.normalization :: t) isStyleP
      isStyleP_isProbe hex, hfs]

/-- Witness for C1: a concrete hierarchy with five convolutions followed
by a trailing out-of-range convolution and ReLU satisfies the claim. -/
theorem builder_truncates_after_last_probe_witness :
    ∃ t model,
      walk content_layers_default style_layers_default 0
        [RawLayer.conv2d, RawLayer.relu true, RawLayer.conv2d,
         RawLayer.relu true, RawLayer.maxPool2d, RawLayer.conv2d,
         RawLayer.relu true, RawLayer.conv2d, RawLayer.relu true,
         RawLayer.maxPool2d, RawLayer.conv2d, RawLayer.relu true] =
        Except.ok t ∧
      get_style_model_and_losses
        [RawLayer.conv2d, RawLayer.relu true, RawLayer.conv2d,
         RawLayer.relu true, RawLayer.maxPool2d, RawLayer.conv2d,
         RawLayer.relu true, RawLayer.conv2d, RawLayer.relu true,
         RawLayer.maxPool2d, RawLayer.conv2d, RawLayer.relu true]
        none none = Except.ok model ∧
      model = truncate (Entry.normalization :: t) ∧
      (∃ k, model = (Entry.normalization :: t).take k) ∧
      (∃ e, model.getLast? = some e ∧ isProbe e = true) ∧
      model.countP isContentP = 1 ∧
      model.countP isStyleP = 5 :=
  builder_truncates_after_last_probe
    [RawLayer.conv2d, RawLayer.relu true, RawLayer.conv2d,
     RawLayer.relu true, RawLayer.maxPool2d, RawLayer.conv2d,
     RawLayer.relu true, RawLayer.conv2d, RawLayer.relu true,
     RawLayer.maxPool2d, RawLayer.conv2d, RawLayer.relu true]
    (by decide) (by decide)

/-- Claim C6: if the hierarchy contains a layer of unrecognized kind, the
builder signals the fatal `RuntimeError` instead of silently skipping it,
and returns no built pipeline to the caller. -/
theorem builder_rejects_unrecognized_layer (cnn : List RawLayer)
    (content_layers style_layers : Option (List LayerName))
    (h : ∃ l ∈ cnn, isOther l = true) :
    ∃ e, get_style_model_and_losses cnn content_layers style_layers =
        Except.error e ∧
      ∀ m, get_style_model_and_losses cnn content_layers style_layers ≠
        Except.ok m := by
  obtain ⟨e, he⟩ := walk_error_of_other
    (content_layers.getD content_layers_default)
    (style_layers.getD style_layers_default) cnn h 0
  refine ⟨e, by simp [get_style_model_and_losses, he], fun m hm => ?_⟩
  simp [get_style_model_and_losses, he] at hm

/-- Witness for C6: a hierarchy containing a `Dropout` layer makes the
builder abort. -/
theorem builder_rejects_unrecognized_layer_witness :
    ∃ e, get_style_model_and_losses
        [RawLayer.conv2d, RawLayer.other "Dropout"] none none =
        Except.error e ∧
      ∀ m, get_style_model_and_losses
        [RawLayer.conv2d, RawLayer.other "Dropout"] none none ≠
        Except.ok m :=
  builder_rejects_unrecognized_layer
    [RawLayer.conv2d, RawLayer.other "Dropout"] none none (by decide)

/-- Claim C7: every ReLU layer appearing in the built pipeline is the
out-of-place variant, even when the source hierarchy used the in-place
variant. -/
theorem builder_relu_out_of_place (cnn : List RawLayer)
    (content_layers style_layers : Option (List LayerName))
    (model : List Entry)
    (h : get_style_model_and_losses cnn content_layers style_layers =
      Except.ok model) :
    model.all reluOutOfPlace = true := by
  cases hw : walk (content_layers.getD content_layers_default)
      (style_layers.getD style_layers_default) 0 cnn with
  | error e => simp [get_style_model_and_losses, hw] at h
  | ok t =>
    simp [get_style_model_and_losses, hw] at h
    subst h
    rw [List.all_eq_true]
    intro e he
    have hmem := truncate_subset (Entry.normalization :: t) e he
    rcases List.mem_cons.1 hmem with rfl | hmem'
    · rfl
    · exact walk_reluOutOfPlace _ _ cnn 0 t hw e hmem'

/-- Witness for C7: the pipeline built from `[Conv2d, ReLU(inplace=True),
Conv2d]` contains only out-of-place ReLUs. -/
theorem builder_relu_out_of_place_witness :
    ([Entry.normalization,
      Entry.layer (.conv 1) .conv2d, Entry.styleLoss 1,
      Entry.layer (.relu 1) (.relu false),
      Entry.layer (.conv 2) .conv2d,
      Entry.styleLoss 2]).all reluOutOfPlace = true :=
  builder_relu_out_of_place
    [RawLayer.conv2d, RawLayer.relu true, RawLayer.conv2d] none none
    [Entry.normalization,
     Entry.layer (.conv 1) .conv2d, Entry.styleLoss 1,
     Entry.layer (.relu 1) (.relu false),
     Entry.layer (.conv 2) .conv2d,
     Entry.styleLoss 2] (by rfl)

/-- Claim C10: when no derived layer name matches either selection, no
probe is ever inserted, the backward truncation scan finds no probe, and
the returned pipeline is exactly the normalization stage and nothing
else. -/
theorem builder_no_match_normalization_only (cnn : List RawLayer)
    (cl sl : List LayerName)
    (hrec : ∀ l ∈ cnn, isOther l = false)
    (hmiss : ∀ n ∈ derivedNames 0 cnn, n ∉ cl ∧ n ∉ sl) :
    get_style_model_and_losses cnn (some cl) (some sl) =
      Except.ok [Entry.normalization] := by
  obtain ⟨t, ht⟩ := walk_ok_of_recognized cl sl cnn hrec 0
  have hnop : ∀ e ∈ t, isProbe e = false :=
    walk_no_probe cl sl cnn 0 t ht hmiss
  have hall : ∀ e ∈ Entry.normalization :: t, isProbe e = false := by
    intro e he
    rcases List.mem_cons.1 he with rfl | he'
    · rfl
    · exact hnop e he'
  have htr : truncate (Entry.normalization :: t) = [Entry.normalization] :=
    truncate_of_no_probe (Entry.normalization :: t) hall
  simp [get_style_model_and_losses, ht, htr]

/-- Witness for C10: with selections naming only `conv_9`, a two-layer
hierarchy yields just the normalization stage. -/
theorem builder_no_match_normalization_only_witness :
    get_style_model_and_losses [RawLayer.conv2d, RawLayer.relu false]
      (some [LayerName.conv 9]) (some []) =
      Except.ok [Entry.normalization] :=
  builder_no_match_normalization_only [RawLayer.conv2d, RawLayer.relu false]
    [LayerName.conv 9] [] (by decide) (by decide)
